import Mathlib

/-!
Verification of the YAL parser and participant/graph builder
(sources: src/yal/core.py and src/yal/util/util.py).

The parser in src/yal/core.py is a pyparsing grammar.  The embedding below
reproduces pyparsing semantics for exactly the combinators the source uses:

* whitespace (space, tab, newline) and the two comment forms are skipped
  before every token match (the grammar carries .ignore(_comment));
* Literal matches an exact character sequence with no internal skipping,
  so the compound literals such as IOLIST; must appear contiguously;
* MatchFirst (the | operator) takes the first alternative that matches;
* Optional(e) tries e and resets the position when e fails as a whole;
* OneOrMore(e) repeats e greedily and stops before the first failure,
  failing outright when no repetition succeeds;
* parseString is called without parseAll, so trailing text after the last
  complete module block is left unconsumed and is not an error;
* a results name set on an element inside a Group is stored in that
  group's own ParseResults and is invisible from the enclosing results;
  a results name set on an ungrouped expression stores the flat token
  list, and names set on ungrouped elements propagate to the enclosing
  results, later assignments overwriting earlier ones (these scoping
  rules were checked against pyparsing 3.1.0 on minimal examples).

Python-side behaviour is modelled in the Except monad: pyparsing's
ParseException, and the AttributeError / ValueError / IndexError that the
model-builder and util code can raise, are explicit error values.
Randomness (random.randrange, random colors) is modelled by explicit
function parameters; no claim depends on the drawn values.
-/

namespace Yal

/-- Error values standing for the Python exceptions the code can raise. -/
inductive Err : Type where
  | parseError
  | attributeError
  | valueError
  | indexError
  | typeError
deriving DecidableEq, Repr

/-- pyparsing ParseResults: a token is a plain string or a nested result
carrying its own token list and its own name-to-value assignments
(in assignment order; a later assignment to a name overwrites an earlier
one, which the lookup function realises by taking the last binding). -/
inductive Val : Type where
  | str : String → Val
  | res : List Val → List (String × Val) → Val
deriving Repr

/-- Python dict lookup for a dict built key-by-key from an association
list: a later binding of the same key overwrites an earlier one, so the
lookup takes the last binding; a missing key gives None. -/
def dget {α : Type} (d : List (String × α)) (k : String) : Option α :=
  ((d.filter (fun e => e.1 == k)).getLast?).map (fun e => e.2)

/-- Last-binding-wins lookup in a ParseResults name assignment list. -/
def lookupLast (d : List (String × Val)) (k : String) : Option Val :=
  dget d k

/-- Token list of a result (a plain string token has none). -/
def Val.toks : Val → List Val
  | .str _ => []
  | .res t _ => t

/-- Name assignments of a result (a plain string token has none). -/
def Val.dict : Val → List (String × Val)
  | .str _ => []
  | .res _ d => d

/-- ParseResults.get for a named value, None when the name is absent. -/
def Val.getN (v : Val) (k : String) : Option Val :=
  lookupLast v.dict k

/-- Extract the plain string from a named value. -/
def getStr : Option Val → Option String
  | some (.str s) => some s
  | _ => none

/-- ParseResults.get with a string default (the source uses defaults such
as NO NAME for names that can only be single tokens). -/
def sget (v : Val) (k : String) (dflt : String) : String :=
  (getStr (v.getN k)).getD dflt

/-- Character class of Word(alphanums + underscore). -/
def isAlnumU (c : Char) : Bool :=
  ('A' ≤ c && c ≤ 'Z') || ('a' ≤ c && c ≤ 'z') || ('0' ≤ c && c ≤ '9') || c == '_'

/-- Character class of Word(nums). -/
def isNum (c : Char) : Bool :=
  ('0' ≤ c && c ≤ '9')

/-- Character class of Word(nums + dash). -/
def isNumDash (c : Char) : Bool :=
  isNum c || c == '-'

/-- Character class of Word(nums + dot + dash), used for current/voltage. -/
def isNumDotDash (c : Char) : Bool :=
  isNum c || c == '.' || c == '-'

/-- pyparsing default skippable whitespace characters. -/
def isWsChar (c : Char) : Bool :=
  c == ' ' || c == '\t' || c == '\n'

/-- Drop characters up to, but not including, the next newline
(the line comment regex matches every non-newline character). -/
def dropToNl : List Char → List Char
  | [] => []
  | '\n' :: r => '\n' :: r
  | _ :: r => dropToNl r

/-- Whether the characters contain a closing star-slash. -/
def hasClose : List Char → Bool
  | [] => false
  | '*' :: '/' :: _ => true
  | _ :: r => hasClose r

/-- Drop characters through the first closing star-slash
(the block comment regex body is non-greedy). -/
def dropBlock : List Char → List Char
  | [] => []
  | '*' :: '/' :: r => r
  | _ :: r => dropBlock r

/-- Skip whitespace and the two ignored comment forms, repeatedly, as the
pyparsing pre-parse loop does; an unterminated block comment is not a
comment, so skipping stops in front of its opening slash.  The fuel
argument only bounds the number of skipping steps; every call site passes
fuel exceeding the input length. -/
def skipWs : Nat → List Char → List Char
  | 0, s => s
  | f + 1, s =>
    match s with
    | '/' :: '/' :: r => skipWs f (dropToNl r)
    | '/' :: '*' :: r => if hasClose r then skipWs f (dropBlock r) else '/' :: '*' :: r
    | c :: r => if isWsChar c then skipWs f r else c :: r
    | [] => []

/-- Match an exact character sequence (pyparsing Literal, after skipping),
returning the rest of the input. -/
def matchChars : List Char → List Char → Option (List Char)
  | [], s => some s
  | _ :: _, [] => none
  | l :: ls, c :: cs => if l == c then matchChars ls cs else none

/-- Literal token: skip, then match the literal exactly. -/
def tokLit (f : Nat) (lit : String) (s : List Char) : Option (List Char) :=
  matchChars lit.data (skipWs f s)

/-- Word token: skip, then take the maximal nonempty run of characters in
the class. -/
def tokWord (f : Nat) (p : Char → Bool) (s : List Char) : Option (String × List Char) :=
  let s1 := skipWs f s
  let w := s1.takeWhile p
  if w.isEmpty then none else some (String.mk w, s1.drop w.length)

/-- MatchFirst over literal alternatives, in source order. -/
def tokAlts (f : Nat) : List String → List Char → Option (String × List Char)
  | [], _ => none
  | lit :: rest, s =>
    match matchChars lit.data (skipWs f s) with
    | some r => some (lit, r)
    | none => tokAlts f rest s

/-- Optional width-and-layer pair inside a terminal geometry group; the
two tokens match together or not at all. -/
def parseWidthLayer (f : Nat) (s : List Char) : Option ((String × String) × List Char) := do
  let (w, s1) ← tokWord f isNum s
  let (ly, s2) ← tokAlts f ["PDIFF", "NDIFF", "POLY", "METAL1", "METAL2"] s1
  some ((w, ly), s2)

/-- Absolute terminal geometry group: x y with optional width and layer.
The names x, y, width, layer are assigned inside this group. -/
def parseGeoAbs (f : Nat) (s : List Char) : Option (Val × List Char) := do
  let (x, s1) ← tokWord f isNumDash s
  let (y, s2) ← tokWord f isNumDash s1
  match parseWidthLayer f s2 with
  | some ((w, ly), s3) =>
    some (.res [.str x, .str y, .str w, .str ly]
               [("x", .str x), ("y", .str y), ("width", .str w), ("layer", .str ly)], s3)
  | none =>
    some (.res [.str x, .str y] [("x", .str x), ("y", .str y)], s2)

/-- Relative terminal geometry group: side and position with optional
width and layer.  The position is named pos in the source grammar. -/
def parseGeoRel (f : Nat) (s : List Char) : Option (Val × List Char) := do
  let (sd, s1) ← tokAlts f ["BOTTOM", "RIGHT", "TOP", "LEFT"] s
  let (pos, s2) ← tokWord f isNumDash s1
  match parseWidthLayer f s2 with
  | some ((w, ly), s3) =>
    some (.res [.str sd, .str pos, .str w, .str ly]
               [("side", .str sd), ("pos", .str pos), ("width", .str w), ("layer", .str ly)], s3)
  | none =>
    some (.res [.str sd, .str pos] [("side", .str sd), ("pos", .str pos)], s2)

/-- One terminal declaration (grammar rule io): the whole declaration is a
Group, so only the names assigned at this level (name, type, current,
voltage) are visible in the group's results; the geometry names live in
the nested geometry group. -/
def parseIo (f : Nat) (s : List Char) : Option (Val × List Char) := do
  let (nm, s1) ← tokWord f isAlnumU s
  let (ty, s2) ← tokAlts f ["I", "O", "B", "PI", "PO", "PB", "F", "PWR", "GND"] s1
  let (geo, s3) ←
    match parseGeoAbs f s2 with
    | some r => some r
    | none => parseGeoRel f s2
  let (cur, s4) :=
    match tokLit f "CURRENT" s3 with
    | some r1 =>
      match tokWord f isNumDotDash r1 with
      | some (c, r2) => (some c, r2)
      | none => (none, s3)
    | none => (none, s3)
  let (vlt, s5) :=
    match tokLit f "VOLTAGE" s4 with
    | some r1 =>
      match tokWord f isNumDotDash r1 with
      | some (c, r2) => (some c, r2)
      | none => (none, s4)
    | none => (none, s4)
  let curToks := match cur with
    | some c => [Val.str "CURRENT", Val.str c]
    | none => []
  let vltToks := match vlt with
    | some c => [Val.str "VOLTAGE", Val.str c]
    | none => []
  let curBinds := match cur with
    | some c => [("current", Val.str c)]
    | none => []
  let vltBinds := match vlt with
    | some c => [("voltage", Val.str c)]
    | none => []
  some (.res ([.str nm, .str ty, geo] ++ curToks ++ vltToks)
             ([("name", .str nm), ("type", .str ty)] ++ curBinds ++ vltBinds), s5)

/-- OneOrMore of terminal-semicolon units; stops before the first unit
that fails, leaving the caller to require at least one. -/
def iosLoop (f : Nat) : Nat → List Char → List Val → (List Val × List Char)
  | 0, s, acc => (acc.reverse, s)
  | fu + 1, s, acc =>
    match parseIo f s with
    | none => (acc.reverse, s)
    | some (v, s1) =>
      match tokLit f ";" s1 with
      | none => (acc.reverse, s)
      | some s2 => iosLoop f fu s2 (v :: acc)

/-- One dimension point: an unnamed group of two signed number words. -/
def parseDim (f : Nat) (s : List Char) : Option (Val × List Char) := do
  let (x, s1) ← tokWord f isNumDash s
  let (y, s2) ← tokWord f isNumDash s1
  some (.res [.str x, .str y] [], s2)

/-- OneOrMore of dimension points. -/
def dimsLoop (f : Nat) : Nat → List Char → List Val → (List Val × List Char)
  | 0, s, acc => (acc.reverse, s)
  | fu + 1, s, acc =>
    match parseDim f s with
    | none => (acc.reverse, s)
    | some (v, s1) => dimsLoop f fu s1 (v :: acc)

/-- OneOrMore of signal names inside a network entry. -/
def sigsLoop (f : Nat) : Nat → List Char → List String → (List String × List Char)
  | 0, s, acc => (acc.reverse, s)
  | fu + 1, s, acc =>
    match tokWord f isAlnumU s with
    | none => (acc.reverse, s)
    | some (w, s1) => sigsLoop f fu s1 (w :: acc)

/-- One network entry: a Group with names name, module, signals assigned
inside it, so they stay scoped to the entry. -/
def parseNet (f : Nat) (s : List Char) : Option (Val × List Char) := do
  let (inst, s1) ← tokWord f isAlnumU s
  let (md, s2) ← tokWord f isAlnumU s1
  let (sigs, s3) := sigsLoop f f s2 []
  if sigs.isEmpty then none
  else
    some (.res ([.str inst, .str md] ++ sigs.map Val.str)
               [("name", .str inst), ("module", .str md),
                ("signals", .res (sigs.map Val.str) [])], s3)

/-- OneOrMore of network-entry-semicolon units. -/
def netsLoop (f : Nat) : Nat → List Char → List Val → (List Val × List Char)
  | 0, s, acc => (acc.reverse, s)
  | fu + 1, s, acc =>
    match parseNet f s with
    | none => (acc.reverse, s)
    | some (v, s1) =>
      match tokLit f ";" s1 with
      | none => (acc.reverse, s)
      | some s2 => netsLoop f fu s2 (v :: acc)

/-- One placement entry.  The instance name is not inside any group, so
its name binding escapes to the module level; the location group is named
placement and keeps only the name y inside itself.  The tokens produced
are the flat pair: instance-name string, then the location group. -/
def parsePlacement (f : Nat) (s : List Char) :
    Option ((List Val × List (String × Val)) × List Char) := do
  let (inst, s1) ← tokWord f isAlnumU s
  let (x, s2) ← tokWord f isNumDash s1
  let (y, s3) ← tokWord f isNumDash s2
  let (refl, s4) :=
    match tokAlts f ["RFLNONE", "RFLY"] s3 with
    | some (r, r1) => (some r, r1)
    | none => (none, s3)
  let (rot, s5) :=
    match tokAlts f ["ROT0", "ROT90", "ROT180", "ROT270"] s4 with
    | some (r, r1) => (some r, r1)
    | none => (none, s4)
  let reflToks := match refl with
    | some r => [Val.str r]
    | none => []
  let rotToks := match rot with
    | some r => [Val.str r]
    | none => []
  let grp := Val.res ([.str x, .str y] ++ reflToks ++ rotToks) [("y", .str y)]
  some (([.str inst, grp],
         [("name", Val.str inst), ("placement", grp)]), s5)

/-- OneOrMore of placement-entry-semicolon units, accumulating the flat
tokens and the escaped name bindings in match order. -/
def placementsLoop (f : Nat) :
    Nat → List Char → List Val → List (String × Val) →
    (List Val × List (String × Val) × List Char)
  | 0, s, acc, bnd => (acc.reverse, bnd.reverse, s)
  | fu + 1, s, acc, bnd =>
    match parsePlacement f s with
    | none => (acc.reverse, bnd.reverse, s)
    | some ((toks, binds), s1) =>
      match tokLit f ";" s1 with
      | none => (acc.reverse, bnd.reverse, s)
      | some s2 => placementsLoop f fu s2 (toks.reverse ++ acc) (binds.reverse ++ bnd)

/-- One critical-net entry: two ungrouped tokens whose names name and len
escape to the module level. -/
def parseCrit (f : Nat) (s : List Char) :
    Option ((List Val × List (String × Val)) × List Char) := do
  let (sig, s1) ← tokWord f isAlnumU s
  let (len, s2) ← tokWord f isNum s1
  some (([Val.str sig, Val.str len],
         [("name", Val.str sig), ("len", Val.str len)]), s2)

/-- OneOrMore of critical-net-entry-semicolon units. -/
def critsLoop (f : Nat) :
    Nat → List Char → List Val → List (String × Val) →
    (List Val × List (String × Val) × List Char)
  | 0, s, acc, bnd => (acc.reverse, bnd.reverse, s)
  | fu + 1, s, acc, bnd =>
    match parseCrit f s with
    | none => (acc.reverse, bnd.reverse, s)
    | some ((toks, binds), s1) =>
      match tokLit f ";" s1 with
      | none => (acc.reverse, bnd.reverse, s)
      | some s2 => critsLoop f fu s2 (toks.reverse ++ acc) (binds.reverse ++ bnd)

/-- Optional NETWORK section; when any part of it fails the whole
optional resets to the position before the section keyword. -/
def parseNetworkSection (f : Nat) (s : List Char) : Option (List Val) × List Char :=
  match tokLit f "NETWORK;" s with
  | none => (none, s)
  | some s1 =>
    let (nets, s2) := netsLoop f f s1 []
    if nets.isEmpty then (none, s)
    else
      match tokLit f "ENDNETWORK;" s2 with
      | none => (none, s)
      | some s3 => (some nets, s3)

/-- Optional PLACEMENT section, with the entries' escaped bindings. -/
def parsePlacementSection (f : Nat) (s : List Char) :
    Option (List Val × List (String × Val)) × List Char :=
  match tokLit f "PLACEMENT;" s with
  | none => (none, s)
  | some s1 =>
    let (toks, binds, s2) := placementsLoop f f s1 [] []
    if toks.isEmpty then (none, s)
    else
      match tokLit f "ENDPLACEMENT;" s2 with
      | none => (none, s)
      | some s3 => (some (toks, binds), s3)

/-- Optional CRITICALNETS section, with the entries' escaped bindings. -/
def parseCritsSection (f : Nat) (s : List Char) :
    Option (List Val × List (String × Val)) × List Char :=
  match tokLit f "CRITICALNETS;" s with
  | none => (none, s)
  | some s1 =>
    let (toks, binds, s2) := critsLoop f f s1 [] []
    if toks.isEmpty then (none, s)
    else
      match tokLit f "ENDCRITICALNETS;" s2 with
      | none => (none, s)
      | some s3 => (some (toks, binds), s3)

/-- Header of a MODULE block: the MODULE, TYPE and DIMENSIONS lines,
yielding the name, the type and the nonempty dimension group list. -/
def parseModuleHead (f : Nat) (s : List Char) :
    Option ((String × String × List Val) × List Char) := do
  let s1 ← tokLit f "MODULE" s
  let (nm, s2) ← tokWord f isAlnumU s1
  let s3 ← tokLit f ";" s2
  let s4 ← tokLit f "TYPE" s3
  let (ty, s5) ← tokAlts f ["STANDARD", "PAD", "GENERAL", "PARENT", "FEEDTHROUGH"] s4
  let s6 ← tokLit f ";" s5
  let s7 ← tokLit f "DIMENSIONS" s6
  let (dims, s8) := dimsLoop f f s7 []
  if dims.isEmpty then none
  else do
    let s9 ← tokLit f ";" s8
    some ((nm, ty, dims), s9)

/-- Mandatory IOLIST section: at least one terminal between the two
compound keyword literals. -/
def parseIolist (f : Nat) (s : List Char) : Option (List Val × List Char) := do
  let s1 ← tokLit f "IOLIST;" s
  let (ios, s2) := iosLoop f f s1 []
  if ios.isEmpty then none
  else do
    let s3 ← tokLit f "ENDIOLIST;" s2
    some (ios, s3)

/-- Assemble the module Group's ParseResults from the matched pieces.
The name assignments are listed in match order, so the instance names of
a placement section and the signal names of a critical-nets section,
which are not enclosed in any group, overwrite the module's own name
binding. -/
def buildModuleVal (nm ty : String) (dims ios : List Val)
    (netsOpt : Option (List Val))
    (plOpt crOpt : Option (List Val × List (String × Val))) : Val :=
  let netToks := match netsOpt with
    | some ns => ns
    | none => []
  let netBinds := match netsOpt with
    | some ns => [("nets", Val.res ns [])]
    | none => []
  let plToks := match plOpt with
    | some (t, _) => t
    | none => []
  let plBinds := match plOpt with
    | some (t, b) => b ++ [("placements", Val.res t [])]
    | none => []
  let crToks := match crOpt with
    | some (t, _) => t
    | none => []
  let crBinds := match crOpt with
    | some (t, b) => b ++ [("crits", Val.res t [])]
    | none => []
  .res ([.str "MODULE", .str nm, .str "TYPE", .str ty]
          ++ dims ++ ios ++ netToks ++ plToks ++ crToks)
       ([("name", .str nm), ("type", .str ty),
         ("dims", .res dims []), ("terms", .res ios [])]
          ++ netBinds ++ plBinds ++ crBinds)

/-- One MODULE block (grammar rule module): header, terminal list, the
three optional sections in their fixed order, and the closing keyword. -/
def parseModule (f : Nat) (s : List Char) : Option (Val × List Char) := do
  let ((nm, ty, dims), s1) ← parseModuleHead f s
  let (ios, s2) ← parseIolist f s1
  let (netsOpt, s3) := parseNetworkSection f s2
  let (plOpt, s4) := parsePlacementSection f s3
  let (crOpt, s5) := parseCritsSection f s4
  let s6 ← tokLit f "ENDMODULE;" s5
  some (buildModuleVal nm ty dims ios netsOpt plOpt crOpt, s6)

/-- OneOrMore of module blocks: repeat until a block fails to match,
keeping the input position before the failed attempt. -/
def modulesLoop (f : Nat) : Nat → List Char → List Val → (List Val × List Char)
  | 0, s, acc => (acc.reverse, s)
  | fu + 1, s, acc =>
    match parseModule f s with
    | none => (acc.reverse, s)
    | some (v, s1) => modulesLoop f fu s1 (v :: acc)

/-- Fuel bound passed to the skipping and repetition helpers; any value
larger than the number of steps taken works, and the slack keeps small
symbolic-tail inputs definitionally unfoldable. -/
def FUEL (s : List Char) : Nat :=
  s.length + 64

/-- grammar.parseString: without parseAll, pyparsing succeeds as soon as
one or more module blocks have matched and leaves trailing text
unconsumed; it raises only when no module block matches at the start. -/
def parseStringChars (s : List Char) : Except Err (List Val) :=
  let r := modulesLoop (FUEL s) (FUEL s) s []
  if r.1.isEmpty then .error .parseError else .ok r.1

/-- Python int() on the token strings the grammar produces: an optional
leading minus followed by at least one digit; anything else (a stray or
embedded dash the Word classes admit) raises ValueError. -/
def digitsToNat (l : List Char) : Nat :=
  l.foldl (fun a c => a * 10 + (c.toNat - 48)) 0

/-- Python int() conversion of a token string. -/
def pyInt (s : String) : Except Err Int :=
  match s.data with
  | '-' :: rest =>
    if rest ≠ [] ∧ rest.all isNum then .ok (-(digitsToNat rest : Int)) else .error .valueError
  | l =>
    if l ≠ [] ∧ l.all isNum then .ok (digitsToNat l : Int) else .error .valueError

/-- The Terminal record of src/yal/core.py.  The geometry and electrical
fields hold whatever parse_result.get returns, so a missing name is the
explicit None marker; the annotations in the source are not enforced at
runtime, and the values, when present, would be raw token strings. -/
structure Terminal : Type where
  signal_name : String
  terminal_type : String
  x_position : Option String
  y_position : Option String
  width : Option String
  layer : Option String
  position : Option String
  size : Option String
  side : Option String
deriving DecidableEq, Repr

/-- make_terminal: field-for-field the get calls of the source, with the
source's keys (including position and size, which no grammar element
binds at this level) and defaults. -/
def make_terminal (v : Val) : Terminal :=
  { signal_name := sget v "name" "NO NAME"
    terminal_type := sget v "type" "NO TYPE"
    x_position := getStr (v.getN "x")
    y_position := getStr (v.getN "y")
    width := getStr (v.getN "width")
    layer := getStr (v.getN "layer")
    position := getStr (v.getN "position")
    size := getStr (v.getN "size")
    side := getStr (v.getN "side") }

/-- Calling make_terminal on a plain string token would be an
AttributeError in Python; the iteration in make_module only ever hands it
groups, but the case is modelled for totality. -/
def make_terminalV : Val → Except Err Terminal
  | .str _ => .error .attributeError
  | v => .ok (make_terminal v)

/-- The Network record of src/yal/core.py. -/
structure Network : Type where
  instance_name : String
  module_name : String
  signal_names : List String
deriving DecidableEq, Repr

/-- make_network: the three get calls of the source. -/
def make_network (v : Val) : Network :=
  { instance_name := sget v "name" "NO NAME"
    module_name := sget v "module" "NO MODULE"
    signal_names := (((v.getN "signals").map Val.toks).getD []).filterMap
      (fun t => getStr (some t)) }

/-- Network entries are always groups; the string case mirrors the
AttributeError Python would raise. -/
def make_networkV : Val → Except Err Network
  | .str _ => .error .attributeError
  | v => .ok (make_network v)

/-- The Module record of src/yal/core.py.  placement maps an instance
name to the positionally built variable-length tuple of raw tokens;
critical_nets maps a signal name to the raw length token (the source
stores c.get with no int conversion). -/
structure Module : Type where
  module_name : String
  module_type : String
  dimensions : List (Int × Int)
  terminals : List Terminal
  network : List Network
  placement : List (String × List String)
  critical_nets : List (String × String)
deriving DecidableEq, Repr

/-- make_module: the constructor arguments are evaluated in source order.
The dims entries are groups of two tokens coerced with int(); the terms
and nets entries are groups; the placements and crits values are the flat
token lists of their ungrouped repetitions, so iterating them first meets
a plain string token, on which .get raises AttributeError. -/
def make_module (v : Val) : Except Err Module := do
  let nm := sget v "name" "NO NAME"
  let ty := sget v "type" "NO TYPE"
  let dims ← (((v.getN "dims").map Val.toks).getD []).mapM (fun d =>
    match d with
    | .res [.str sx, .str sy] _ => do
      let x ← pyInt sx
      let y ← pyInt sy
      pure ((x, y) : Int × Int)
    | _ => (.error .typeError : Except Err (Int × Int)))
  let terms ← (((v.getN "terms").map Val.toks).getD []).mapM make_terminalV
  let nets ← (((v.getN "nets").map Val.toks).getD []).mapM make_networkV
  let plc ← (((v.getN "placements").map Val.toks).getD []).mapM (fun p =>
    match p with
    | .str _ => (.error .attributeError : Except Err (String × List String))
    | .res _ d =>
      pure ((getStr (lookupLast d "name")).getD "NO NAME",
            (((lookupLast d "placement").map Val.toks).getD []).filterMap
              (fun t => getStr (some t))))
  let crits ← (((v.getN "crits").map Val.toks).getD []).mapM (fun c =>
    match c with
    | .str _ => (.error .attributeError : Except Err (String × String))
    | .res _ d =>
      pure ((getStr (lookupLast d "name")).getD "NO NAME",
            (getStr (lookupLast d "len")).getD ""))
  pure { module_name := nm
         module_type := ty
         dimensions := dims
         terminals := terms
         network := nets
         placement := plc
         critical_nets := crits }

/-- parse of src/yal/core.py: run the grammar, then build a Module from
each per-module parse tree. -/
def parseChars (s : List Char) : Except Err (List Module) := do
  let vs ← parseStringChars s
  vs.mapM make_module

/-- parse on a string input. -/
def parse (s : String) : Except Err (List Module) :=
  parseChars s.data

/-!
Embedding of src/yal/util/util.py.

Python's sorted on integer pairs orders lexicographically; since that
order is total and antisymmetric the sorted permutation is unique, so
insertion sort computes exactly what Python's stable sort computes.

random.randrange(0, limit, 1) raises ValueError whenever limit is not
positive, and otherwise draws from [0, limit); the draw itself is
modelled by an explicit function of the limit, and random_color by an
explicit string parameter, since no verified property depends on the
drawn values.
-/

/-- Lexicographic order on integer pairs, as Python compares tuples. -/
def pairLe (p q : Int × Int) : Prop :=
  p.1 < q.1 ∨ (p.1 = q.1 ∧ p.2 ≤ q.2)

instance : DecidableRel pairLe := fun p q => by
  unfold pairLe
  infer_instance

instance : IsTotal (Int × Int) pairLe := by
  constructor
  intro a b
  rcases a with ⟨a1, a2⟩
  rcases b with ⟨b1, b2⟩
  unfold pairLe
  simp only []
  omega

instance : IsTrans (Int × Int) pairLe := by
  constructor
  intro a b c hab hbc
  rcases a with ⟨a1, a2⟩
  rcases b with ⟨b1, b2⟩
  rcases c with ⟨c1, c2⟩
  unfold pairLe at hab hbc ⊢
  simp only [] at hab hbc ⊢
  omega

instance : IsAntisymm (Int × Int) pairLe := by
  constructor
  intro a b hab hba
  rcases a with ⟨a1, a2⟩
  rcases b with ⟨b1, b2⟩
  unfold pairLe at hab hba
  simp only [] at hab hba
  have : a1 = b1 ∧ a2 = b2 := by omega
  simp [this.1, this.2]

/-- The participant record built by as_participant: the zero-initialised
scratch state of init_participant, the computed identity and geometry,
the cosmetic color, and one optional slot per retainable Module field
(a slot is None exactly when the field was not retained, mirroring the
key's absence from the Python dict). -/
structure Participant : Type where
  idx : String
  xmin : Int
  ymin : Int
  width : Int
  height : Int
  clashes : List (String × Int)
  aversions : List (String × Int)
  inference : Int
  connections : Option (List (String × Nat))
  turmoil : Int
  wounds : List Int
  color : Option String
  module_typeF : Option String
  dimensionsF : Option (List (Int × Int))
  terminalsF : Option (List Terminal)
  networkF : Option (List Network)
  placementF : Option (List (String × List String))
  critical_netsF : Option (List (String × String))
deriving DecidableEq, Repr

/-- as_participant: sort the dimension points, read the bounding corners
from the first and last sorted points, and assemble the participant dict;
indexing an empty sorted list is Python's IndexError.  The opt_fields
argument is modelled as one flag per retainable field, matching how
as_participants builds it. -/
def as_participant (colorS : String) (m : Module)
    (retType retDims retTerms retNet retPlc retCrit : Bool)
    (colorize : Bool) : Except Err Participant :=
  match List.insertionSort pairLe m.dimensions with
  | [] => .error .indexError
  | d0 :: rest =>
    let dlast := (d0 :: rest).getLast (List.cons_ne_nil d0 rest)
    .ok
      { idx := m.module_name
        xmin := d0.1
        ymin := d0.2
        width := dlast.1 - d0.1
        height := dlast.2 - d0.2
        clashes := []
        aversions := []
        inference := 0
        connections := some []
        turmoil := 0
        wounds := []
        color := if colorize && !(m.module_name == "bound") then some colorS else none
        module_typeF := if retType then some m.module_type else none
        dimensionsF := if retDims then some m.dimensions else none
        terminalsF := if retTerms then some m.terminals else none
        networkF := if retNet then some m.network else none
        placementF := if retPlc then some m.placement else none
        critical_netsF := if retCrit then some m.critical_nets else none }

/-- randomize_placement: randrange(0, bound - size, 1) raises ValueError
as soon as the range is empty (the x draw is attempted first), otherwise
the participant gets the two fresh draws. -/
def randomize_placement (rngX rngY : Int → Int) (p : Participant)
    (x_bound y_bound : Int) : Except Err Participant :=
  let x_limit := x_bound - p.width
  let y_limit := y_bound - p.height
  if x_limit ≤ 0 then .error .valueError
  else if y_limit ≤ 0 then .error .valueError
  else .ok { p with xmin := rngX x_limit, ymin := rngY y_limit }

/-- Cardinality of set(p.signal_names) & set(a.signal_names) minus the
two rails: deduplicate one side, keep the signals of the other side,
drop G and P, count. -/
def railFree (a p : Network) : Nat :=
  ((p.signal_names.dedup).filter
    (fun s => a.signal_names.contains s && !(s == "G") && !(s == "P"))).length

/-- connects: the weighted connection dict of one network entry against a
list of entries, skipping entries that carry the same module name or the
reserved name bound. -/
def connects (a : Network) (ps : List Network) : List (String × Nat) :=
  (ps.filter (fun p => !(p.module_name == a.module_name) && !(p.module_name == "bound"))).map
    (fun p => (p.module_name, railFree a p))

/-- The x boundary of the randomized placement: the first bound
participant's own width when one exists, else the default 120. -/
def xBoundOf (parts : List Participant) : Int :=
  match parts.filter (fun p => p.idx == "bound") with
  | [] => 120
  | b :: _ => b.width

/-- The y boundary of the randomized placement: the first bound
participant's own height when one exists, else the default 120. -/
def yBoundOf (parts : List Participant) : Int :=
  match parts.filter (fun p => p.idx == "bound") with
  | [] => 120
  | b :: _ => b.height

/-- Randomized-placement step of as_participants: every non-bound
participant is redrawn inside the boundary box and the bound
participants, when present, are appended after all the others. -/
def rngStep (rngX rngY : Int → Int) (parts : List Participant) :
    Except Err (List Participant) := do
  let bound := parts.filter (fun p => p.idx == "bound")
  let rng_parts ← (parts.filter (fun p => !(p.idx == "bound"))).mapM
    (fun p => randomize_placement rngX rngY p (xBoundOf parts) (yBoundOf parts))
  pure (if bound.isEmpty then rng_parts else rng_parts ++ bound)

/-- The network-entry universe of the connection computation: the first
bound participant's retained network list, or the empty list when no
bound participant exists or the field was not retained. -/
def netOf (participants : List Participant) : List Network :=
  match participants.filter (fun p => p.idx == "bound") with
  | [] => []
  | b :: _ => b.networkF.getD []

/-- The connection dict of every network entry of the bound participant,
keyed by the entry's module name. -/
def consOf (participants : List Participant) : List (String × List (String × Nat)) :=
  (netOf participants).map (fun n => (n.module_name, connects n (netOf participants)))

/-- Attach the connection dict looked up under a participant's idx. -/
def updConn (participants : List Participant) (q : Participant) : Participant :=
  { q with connections := dget (consOf participants) q.idx }

/-- Final step of as_participants: compute the per-entry connection
dicts over the bound participant's network list and attach each to the
participant carrying the entry's module name (None for the others). -/
def attachConnections (participants : List Participant) : List Participant :=
  participants.map (updConn participants)

/-- as_participants: build one participant per module; when randomized
placement is requested, redraw positions through rngStep; then attach
the connection dicts computed from the bound participant's retained
network list. -/
def as_participants (colorS : String) (rngX rngY : Int → Int)
    (modules : List Module)
    (rng_placement colorize module_type dimensions terminals network placement critical_nets :
      Bool) : Except Err (List Participant) := do
  let parts ← modules.mapM (fun m =>
    as_participant colorS m module_type dimensions terminals network placement critical_nets
      colorize)
  let participants ← if rng_placement then rngStep rngX rngY parts else pure parts
  pure (attachConnections participants)

/-!
Decidable equality of parse results, concrete documents used as inputs,
and specification-side definitions.  A definition whose name starts with
spec renders a formula of the specification text, to be compared with
what the embedded code computes.
-/

instance {ε α : Type} [DecidableEq ε] [DecidableEq α] : DecidableEq (Except ε α) := fun x y =>
  match x, y with
  | .error e1, .error e2 => if h : e1 = e2 then .isTrue (by simp [h]) else .isFalse (by simp [h])
  | .ok a1, .ok a2 => if h : a1 = a2 then .isTrue (by simp [h]) else .isFalse (by simp [h])
  | .error _, .ok _ => .isFalse (by simp)
  | .ok _, .error _ => .isFalse (by simp)

/-- Specification formula: minimum of a nonempty integer list. -/
def specMin : List Int → Int
  | [] => 0
  | [x] => x
  | x :: y :: r => min x (specMin (y :: r))

/-- Specification formula: maximum of a nonempty integer list. -/
def specMax : List Int → Int
  | [] => 0
  | [x] => x
  | x :: y :: r => max x (specMax (y :: r))

/-- Specification formula for the connectivity weight: the number of
signal names shared by the two entries once the rails G and P are
removed, read symmetrically as the cardinality of the set
intersection. -/
def specSharedCount (a b : Network) : Nat :=
  ((a.signal_names.toFinset ∩ b.signal_names.toFinset) \ ({"G", "P"} : Finset String)).card

/-- Document whose terminals carry every optional field in the text:
absolute geometry with width, layer, current and voltage on the first
terminal, relative geometry on the second. -/
def docC1 : String :=
  "MODULE a ; TYPE STANDARD ; DIMENSIONS 0 0 10 20 ; IOLIST; p I 5 7 10 METAL1 CURRENT 0.5 VOLTAGE -1.2 ; q PWR BOTTOM 3 2 POLY ; ENDIOLIST; ENDMODULE;"

/-- What the code builds for the first terminal of docC1: every field
beyond the signal name and type is the unset marker. -/
def termC1p : Terminal :=
  ⟨"p", "I", none, none, none, none, none, none, none⟩

/-- What the code builds for the second terminal of docC1. -/
def termC1q : Terminal :=
  ⟨"q", "PWR", none, none, none, none, none, none, none⟩

/-- The one module the code builds from docC1. -/
def modC1 : Module :=
  ⟨"a", "STANDARD", [(0, 0), (10, 20)], [termC1p, termC1q], [], [], []⟩

/-- A complete single-module document used for the trailing-text claim. -/
def docC2 : String :=
  "MODULE b ; TYPE PAD ; DIMENSIONS 0 0 4 4 ; IOLIST; p I 1 1 ; ENDIOLIST; ENDMODULE;"

/-- The module built from docC2. -/
def modC2 : Module :=
  ⟨"b", "PAD", [(0, 0), (4, 4)], [⟨"p", "I", none, none, none, none, none, none, none⟩], [], [], []⟩

/-- A document with a PLACEMENT section. -/
def docC6 : String :=
  "MODULE a ; TYPE STANDARD ; DIMENSIONS 0 0 ; IOLIST; p I 0 0 ; ENDIOLIST; PLACEMENT; i1 10 20 RFLY ROT90 ; ENDPLACEMENT; ENDMODULE;"

/-- A document with a CRITICALNETS section. -/
def docC7 : String :=
  "MODULE a ; TYPE STANDARD ; DIMENSIONS 0 0 ; IOLIST; p I 0 0 ; ENDIOLIST; CRITICALNETS; n1 100 ; ENDCRITICALNETS; ENDMODULE;"

/-- Token list of a document exercising every mandatory section and a
network section; consecutive tokens are separated by single spaces. -/
def toksC9 : List String :=
  ["MODULE", "a", ";", "TYPE", "PAD", ";", "DIMENSIONS", "0", "10", "10", "0", ";",
   "IOLIST;", "p", "I", "5", "5", ";", "ENDIOLIST;",
   "NETWORK;", "i1", "M1", "n1", "n2", ";", "i2", "M2", "n2", ";", "ENDNETWORK;",
   "ENDMODULE;"]

/-- The comment-free document: the tokens joined by single spaces. -/
def docC9 : String :=
  String.intercalate " " toksC9

/-- The same document with a block comment inserted at every position
between two adjacent tokens. -/
def docC9blk : String :=
  String.intercalate " /* boundary */ " toksC9

/-- The same document with a line comment (closed by its newline)
inserted at every position between two adjacent tokens. -/
def docC9lin : String :=
  String.intercalate " // boundary\n " toksC9

/-- The same token sequence with a block comment inserted between the two
adjacent tokens IOLIST and the semicolon that follows it. -/
def docC9bad : String :=
  String.intercalate " " (["MODULE", "a", ";", "TYPE", "PAD", ";", "DIMENSIONS", "0", "10", "10", "0", ";",
   "IOLIST/* boundary */;", "p", "I", "5", "5", ";", "ENDIOLIST;",
   "NETWORK;", "i1", "M1", "n1", "n2", ";", "i2", "M2", "n2", ";", "ENDNETWORK;",
   "ENDMODULE;"])

/-- The module built from docC9 (and from its commented variants). -/
def modC9 : Module :=
  ⟨"a", "PAD", [(0, 10), (10, 0)], [⟨"p", "I", none, none, none, none, none, none, none⟩],
   [⟨"i1", "M1", ["n1", "n2"]⟩, ⟨"i2", "M2", ["n2"]⟩], [], []⟩

/-- A module record with the given dimension points and no sections. -/
def mkModDims (l : List (Int × Int)) : Module :=
  ⟨"m", "STANDARD", l, [], [], [], []⟩

/-- The rectangle dimension points of the specification example. -/
def rectC3 : List (Int × Int) :=
  [(0, 0), (0, 10), (10, 10), (10, 0)]

/-- The network entry a of the specification example. -/
def aC4 : Network :=
  ⟨"i1", "M1", ["n1", "n2", "G"]⟩

/-- The network entry b of the specification example. -/
def bC4 : Network :=
  ⟨"i2", "M2", ["n2", "n3", "G"]⟩

/-- A second entry carrying the module name M2, whose overlap with aC4 is
empty. -/
def cC4 : Network :=
  ⟨"i3", "M2", ["x9"]⟩

/-- A participant of width 20 and height 5 used as a concrete input to
the randomization step. -/
def pC8 : Participant :=
  ⟨"M", 0, 0, 20, 5, [], [], 0, some [], 0, [], none, none, none, none, none, none, none⟩

/-- A bound module carrying the example network entries, used as a
concrete input to as_participants. -/
def boundC5 : Module :=
  ⟨"bound", "PARENT", [(0, 0), (120, 100)], [], [aC4, bC4], [], []⟩

/-- A plain module with the given name, used alongside boundC5. -/
def plainMod (n : String) : Module :=
  ⟨n, "STANDARD", [(0, 0), (5, 5)], [], [], [], []⟩

/-- The participant built from the rectangle dimension points. -/
def pC3w : Participant :=
  ⟨"m", 0, 0, 10, 10, [], [], 0, some [], 0, [], some "c", none, none, none, none, none, none⟩

/-- The participant built from the points (0, 10) and (10, 0): its
height is the difference of the lexicographic extremes, minus 10. -/
def pC3ce : Participant :=
  ⟨"m", 0, 10, 10, -10, [], [], 0, some [], 0, [], some "c", none, none, none, none, none, none⟩

/-- First participant of the concrete as_participants run. -/
def pC5m1 : Participant :=
  ⟨"M1", 7, 8, 5, 5, [], [], 0, some [("M2", 1)], 0, [], some "#c", none, none, none, some [],
   none, none⟩

/-- Second participant of the concrete as_participants run. -/
def pC5m2 : Participant :=
  ⟨"M2", 7, 8, 5, 5, [], [], 0, some [("M1", 1)], 0, [], some "#c", none, none, none, some [],
   none, none⟩

/-- The bound participant of the concrete as_participants run: its
position stays the computed bounding-box minimum. -/
def pC5b : Participant :=
  ⟨"bound", 0, 0, 120, 100, [], [], 0, none, 0, [], none, none, none, none, some [aC4, bC4],
   none, none⟩

/-- The full output of the concrete as_participants run. -/
def psC5 : List Participant :=
  [pC5m1, pC5m2, pC5b]

/-- The module list of the concrete as_participants run, with the bound
module in the middle. -/
def modsC5 : List Module :=
  [plainMod "M1", boundC5, plainMod "M2"]

set_option maxRecDepth 100000

set_option maxHeartbeats 2000000

/-- Claim C1 (code bug witness): on a document whose first terminal
declares absolute position 5 7, width 10, layer METAL1, current 0.5 and
voltage minus 1.2, and whose second terminal declares side BOTTOM and
position 3, the built Terminal records hold the unset marker in every
geometry and electrical field: the values present in the source text are
not transferred, because the grammar assigns those names inside a nested
group where make_terminal's lookups cannot see them (and the Terminal
record has no current or voltage field at all). -/
theorem c1_terminal_fields_lost : parse docC1 = .ok [modC1] := by
  decide

/-- Claim C2 (counterexample): a document consisting of one complete
module block followed by trailing text that is no module block parses
successfully, returning the module list of the prefix, instead of
failing with a syntax error as the claim states. -/
theorem c2_counterexample_trailing_text : parse (docC2 ++ " &&& no module here") = .ok [modC2] := by
  decide

/-- Claim C2 (amended): parseString is called without parseAll, so parse
only requires the input to begin with one or more complete module
blocks: whatever trailing text follows the last complete module block is
ignored, and parse fails exactly when no complete module block can be
matched at the start of the input. -/
theorem c2_amended_trailing_text_ignored :
    (∀ g : List Char, parseChars (docC2.data ++ '@' :: g) = .ok [modC2]) ∧
    (∀ g : List Char, parseChars ('@' :: g) = .error .parseError) :=
  ⟨fun _ => rfl, fun _ => rfl⟩

/-- Claim C6 (code bug witness): on a document with a PLACEMENT section
the whole parse call raises AttributeError instead of building the
placement mapping: the placement repetition is not grouped, so the
module results hold its flat token list, whose first element is the
plain instance-name string on which the builder calls .get. -/
theorem c6_placement_section_crashes : parse docC6 = .error .attributeError := by
  decide

/-- Claim C7 (code bug witness): on a document with a CRITICALNETS
section the whole parse call raises AttributeError instead of building
the critical-nets mapping, for the same ungrouped-repetition reason as
the placement section. -/
theorem c7_criticalnets_section_crashes : parse docC7 = .error .attributeError := by
  decide

/-- Claim C8 (confirmed): whenever the x boundary is at most the
participant's width, or the y boundary is at most its height,
randrange(0, bound - size, 1) is given an empty range and the
randomization step fails with ValueError; no participant is returned. -/
theorem c8_randomize_empty_range_errors (rngX rngY : Int → Int) (p : Participant)
    (x_bound y_bound : Int) (h : x_bound ≤ p.width ∨ y_bound ≤ p.height) :
    randomize_placement rngX rngY p x_bound y_bound = .error .valueError := by
  unfold randomize_placement
  rcases h with h | h
  · have hx : x_bound - p.width ≤ 0 := by omega
    simp [hx]
  · by_cases hx : x_bound - p.width ≤ 0
    · simp [hx]
    · have hy : y_bound - p.height ≤ 0 := by omega
      simp [hx, hy]

/-- Witness for claim C8 at a concrete participant of width 20 with x
boundary 5. -/
theorem c8_randomize_empty_range_errors_witness :
    randomize_placement (fun _ => 0) (fun _ => 0) pC8 5 120 = .error .valueError :=
  c8_randomize_empty_range_errors (fun _ => 0) (fun _ => 0) pC8 5 120 (Or.inl (by decide))

/-- Claim C9 (counterexample): the document docC9 parses, and inserting
a block comment between its two adjacent tokens IOLIST and the semicolon
that follows makes the whole parse fail, because the grammar matches
IOLIST-semicolon as one contiguous literal; so a comment between two
adjacent tokens does not always preserve the parse. -/
theorem c9_counterexample_comment_in_compound :
    parse docC9 = .ok [modC9] ∧ parse docC9bad = .error .parseError := by
  constructor
  · decide
  · decide

/-- Claim C9 (amended): comments may appear at every whitespace-skipping
position between two adjacent tokens, that is everywhere except inside
the contiguous keyword-semicolon literals (IOLIST;, ENDIOLIST;,
NETWORK;, ENDNETWORK;, PLACEMENT;, ENDPLACEMENT;, CRITICALNETS;,
ENDCRITICALNETS;, ENDMODULE; and the MODULE, TYPE and DIMENSIONS
keywords' own spellings): the document with a block comment, or a line
comment closed by a newline, inserted at every single token boundary
parses to exactly the records of the comment-free document. -/
theorem c9_amended_comments_at_boundaries :
    parse docC9 = .ok [modC9] ∧ parse docC9blk = .ok [modC9] ∧ parse docC9lin = .ok [modC9] := by
  refine ⟨by decide, by decide, by decide⟩

lemma exBindOk {α β : Type} (a : α) (f : α → Except Err β) : (Except.ok a >>= f) = f a := rfl

lemma exBindErr {α β : Type} (e : Err) (f : α → Except Err β) :
    ((Except.error e : Except Err α) >>= f) = .error e := rfl

lemma contains_true_iff (l : List String) (s : String) : l.contains s = true ↔ s ∈ l :=
  List.elem_iff

lemma toFinset_dedup (l : List String) : l.dedup.toFinset = l.toFinset := by
  ext x
  simp [List.mem_dedup]

lemma railFree_eq_spec (a b : Network) : railFree a b = specSharedCount a b := by
  unfold railFree specSharedCount
  have h1 : (b.signal_names.dedup.filter
      (fun s => a.signal_names.contains s && !(s == "G") && !(s == "P"))).length
      = (b.signal_names.toFinset.filter
          (fun s => (a.signal_names.contains s && !(s == "G") && !(s == "P")) = true)).card := by
    rw [← toFinset_dedup b.signal_names, ← List.toFinset_filter]
    rw [List.toFinset_card_of_nodup (List.Nodup.filter _ b.signal_names.nodup_dedup)]
  rw [h1]
  congr 1
  ext s
  simp only [Finset.mem_filter, Finset.mem_sdiff, Finset.mem_inter, List.mem_toFinset,
    Finset.mem_insert, Finset.mem_singleton, Bool.and_eq_true, Bool.not_eq_true',
    beq_eq_false_iff_ne, ne_eq, contains_true_iff]
  tauto

lemma filter_fst_map {β : Type} (g : Network → β) (l : List Network) (k : String) :
    ((l.map (fun n => (n.module_name, g n))).filter (fun e => e.1 == k)) =
      (l.filter (fun n => n.module_name == k)).map (fun n => (n.module_name, g n)) := by
  induction l with
  | nil => simp
  | cons n t ih =>
    by_cases h : (n.module_name == k) <;> simp [List.filter_cons, h, ih]

lemma dget_map_of_filter_eq {β : Type} (g : Network → β) (l : List Network) (b : Network)
    (h : l.filter (fun p => p.module_name == b.module_name) = [b]) :
    dget (l.map (fun n => (n.module_name, g n))) b.module_name = some (g b) := by
  unfold dget
  rw [filter_fst_map, h]
  rfl

lemma dget_map_some {β : Type} (g : Network → β) (l : List Network) (k : String) (c : β)
    (h : dget (l.map (fun n => (n.module_name, g n))) k = some c) :
    ∃ n ∈ l, n.module_name = k ∧ c = g n := by
  unfold dget at h
  rw [filter_fst_map] at h
  cases hg : ((l.filter (fun n => n.module_name == k)).map
      (fun n => (n.module_name, g n))).getLast? with
  | none => rw [hg] at h; simp at h
  | some e =>
    rw [hg] at h
    simp only [Option.map_some', Option.some.injEq] at h
    obtain ⟨hne, he⟩ := List.mem_getLast?_eq_getLast (Option.mem_def.mpr hg)
    have hmem : e ∈ (l.filter (fun n => n.module_name == k)).map
        (fun n => (n.module_name, g n)) := by
      rw [he]
      exact List.getLast_mem hne
    obtain ⟨n, hn, he2⟩ := List.mem_map.mp hmem
    have hn2 := List.mem_filter.mp hn
    refine ⟨n, hn2.1, by simpa using hn2.2, ?_⟩
    rw [← h, ← he2]

lemma filter_cond_collapse (a b : Network) (net : List Network)
    (hne : ¬ b.module_name = a.module_name) (hnb : ¬ b.module_name = "bound")
    (h : net.filter (fun p => p.module_name == b.module_name) = [b]) :
    (net.filter
        (fun p => !(p.module_name == a.module_name) && !(p.module_name == "bound"))).filter
      (fun p => p.module_name == b.module_name) = [b] := by
  rw [List.filter_filter]
  rw [← h]
  apply List.filter_congr
  intro p _
  by_cases hp : (p.module_name == b.module_name)
  · have hpe : p.module_name = b.module_name := by simpa using hp
    simp [hp, hpe, hne, hnb]
  · simp [hp]

lemma specMin_mem : ∀ l : List Int, l ≠ [] → specMin l ∈ l
  | [x], _ => by simp [specMin]
  | x :: y :: r, _ => by
    have ih := specMin_mem (y :: r) (by simp)
    unfold specMin
    rcases le_total x (specMin (y :: r)) with h | h
    · simp [min_eq_left h]
    · rw [min_eq_right h]
      exact List.mem_cons_of_mem x ih

lemma specMin_le : ∀ (l : List Int) (x : Int), x ∈ l → specMin l ≤ x
  | [a], x, hx => by
    simp at hx
    simp [specMin, hx]
  | a :: y :: r, x, hx => by
    unfold specMin
    rcases List.mem_cons.mp hx with h | h
    · subst h
      exact min_le_left _ _
    · exact le_trans (min_le_right _ _) (specMin_le (y :: r) x h)

lemma specMax_mem : ∀ l : List Int, l ≠ [] → specMax l ∈ l
  | [x], _ => by simp [specMax]
  | x :: y :: r, _ => by
    have ih := specMax_mem (y :: r) (by simp)
    unfold specMax
    rcases le_total x (specMax (y :: r)) with h | h
    · rw [max_eq_right h]
      exact List.mem_cons_of_mem x ih
    · simp [max_eq_left h]

lemma le_specMax : ∀ (l : List Int) (x : Int), x ∈ l → x ≤ specMax l
  | [a], x, hx => by
    simp at hx
    simp [specMax, hx]
  | a :: y :: r, x, hx => by
    unfold specMax
    rcases List.mem_cons.mp hx with h | h
    · subst h
      exact le_max_left _ _
    · exact le_trans (le_specMax (y :: r) x h) (le_max_right _ _)

lemma pairLe_refl (p : Int × Int) : pairLe p p :=
  Or.inr ⟨rfl, le_refl _⟩

lemma pairLe_fst {p q : Int × Int} (h : pairLe p q) : p.1 ≤ q.1 := by
  rcases h with h | ⟨h, _⟩
  · omega
  · omega

lemma sorted_head_le {d0 : Int × Int} {rest : List (Int × Int)}
    (h : List.Sorted pairLe (d0 :: rest)) : ∀ x ∈ d0 :: rest, pairLe d0 x := by
  intro x hx
  rcases List.mem_cons.mp hx with h1 | h1
  · subst h1
    exact pairLe_refl x
  · exact (List.sorted_cons.mp h).1 x h1

lemma sorted_le_getLast :
    ∀ (l : List (Int × Int)), List.Sorted pairLe l → ∀ (hne : l ≠ []),
      ∀ x ∈ l, pairLe x (l.getLast hne)
  | [a], _, _, x, hx => by
    simp at hx
    subst hx
    exact pairLe_refl x
  | a :: b :: r, h, hne, x, hx => by
    have hbr : (b :: r) ≠ [] := by simp
    rw [List.getLast_cons hbr]
    rcases List.mem_cons.mp hx with h1 | h1
    · subst h1
      exact (List.sorted_cons.mp h).1 _ (List.getLast_mem hbr)
    · exact sorted_le_getLast (b :: r) (List.sorted_cons.mp h).2 hbr x h1

/-- Fields of a successfully built participant, in terms of the sorted
dimension list of its module. -/

lemma as_participant_ok {cS : String} {m : Module} {rt rd rte rn rp rc cz : Bool}
    {p : Participant} (h : as_participant cS m rt rd rte rn rp rc cz = .ok p) :
    ∃ d0 rest, List.insertionSort pairLe m.dimensions = d0 :: rest ∧
      p.idx = m.module_name ∧ p.xmin = d0.1 ∧ p.ymin = d0.2 ∧
      p.width = ((d0 :: rest).getLast (List.cons_ne_nil d0 rest)).1 - d0.1 ∧
      p.height = ((d0 :: rest).getLast (List.cons_ne_nil d0 rest)).2 - d0.2 ∧
      p.networkF = (if rn then some m.network else none) := by
  unfold as_participant at h
  cases hs : List.insertionSort pairLe m.dimensions with
  | nil => rw [hs] at h; cases h
  | cons d0 rest =>
    rw [hs] at h
    simp only [Except.ok.injEq] at h
    subst h
    exact ⟨d0, rest, rfl, rfl, rfl, rfl, rfl, rfl, rfl⟩

lemma sorted_head_eq_specMin {l : List (Int × Int)} {d0 : Int × Int} {rest : List (Int × Int)}
    (hs : List.insertionSort pairLe l = d0 :: rest) :
    d0.1 = specMin (l.map Prod.fst) := by
  have hperm : (List.insertionSort pairLe l).Perm l := List.perm_insertionSort pairLe l
  have hsorted : List.Sorted pairLe (d0 :: rest) := by
    rw [← hs]
    exact List.sorted_insertionSort pairLe l
  have hlne : l ≠ [] := by
    intro he
    subst he
    simp [List.insertionSort] at hs
  have hmapne : l.map Prod.fst ≠ [] := by
    simpa using hlne
  apply le_antisymm
  · obtain ⟨q, hq, hq1⟩ := List.mem_map.mp (specMin_mem (l.map Prod.fst) hmapne)
    have hqs : q ∈ d0 :: rest := by
      rw [← hs] at *
      exact (hperm.mem_iff).mpr hq
    calc d0.1 ≤ q.1 := pairLe_fst (sorted_head_le hsorted q hqs)
    _ = specMin (l.map Prod.fst) := hq1
  · apply specMin_le
    apply List.mem_map.mpr
    refine ⟨d0, ?_, rfl⟩
    have : d0 ∈ d0 :: rest := List.mem_cons_self d0 rest
    rw [← hs] at this
    exact hperm.mem_iff.mp this

lemma sorted_getLast_eq_specMax {l : List (Int × Int)} {d0 : Int × Int} {rest : List (Int × Int)}
    (hs : List.insertionSort pairLe l = d0 :: rest) :
    ((d0 :: rest).getLast (List.cons_ne_nil d0 rest)).1 = specMax (l.map Prod.fst) := by
  have hperm : (List.insertionSort pairLe l).Perm l := List.perm_insertionSort pairLe l
  have hsorted : List.Sorted pairLe (d0 :: rest) := by
    rw [← hs]
    exact List.sorted_insertionSort pairLe l
  have hmapne : l.map Prod.fst ≠ [] := by
    intro he
    have hl : l = [] := by simpa using he
    subst hl
    simp [List.insertionSort] at hs
  set dl := (d0 :: rest).getLast (List.cons_ne_nil d0 rest) with hdl
  apply le_antisymm
  · apply le_specMax
    apply List.mem_map.mpr
    refine ⟨dl, ?_, rfl⟩
    have : dl ∈ d0 :: rest := List.getLast_mem _
    rw [← hs] at this
    exact hperm.mem_iff.mp this
  · obtain ⟨q, hq, hq1⟩ := List.mem_map.mp (specMax_mem (l.map Prod.fst) hmapne)
    have hqs : q ∈ d0 :: rest := by
      rw [← hs] at *
      exact (hperm.mem_iff).mpr hq
    calc specMax (l.map Prod.fst) = q.1 := hq1.symm
    _ ≤ dl.1 := pairLe_fst (sorted_le_getLast (d0 :: rest) hsorted _ q hqs)

lemma mapM_ok_mem {α β : Type} (f : α → Except Err β) :
    ∀ (l : List α) (l2 : List β), l.mapM f = .ok l2 → ∀ b ∈ l2, ∃ a ∈ l, f a = .ok b := by
  intro l
  induction l with
  | nil =>
    intro l2 h b hb
    rw [List.mapM_nil] at h
    simp only [pure, Except.pure, Except.ok.injEq] at h
    subst h
    cases hb
  | cons a t ih =>
    intro l2 h b hb
    rw [List.mapM_cons] at h
    cases hfa : f a with
    | error e => rw [hfa] at h; simp [exBindErr] at h
    | ok b0 =>
      rw [hfa] at h
      rw [exBindOk] at h
      cases htt : t.mapM f with
      | error e => rw [htt] at h; simp [exBindErr] at h
      | ok bs =>
        rw [htt] at h
        rw [exBindOk] at h
        simp only [pure, Except.pure, Except.ok.injEq] at h
        subst h
        rcases List.mem_cons.mp hb with h1 | h1
        · exact ⟨a, List.mem_cons_self a t, h1 ▸ hfa⟩
        · obtain ⟨a2, ha2, hfa2⟩ := ih bs htt b h1
          exact ⟨a2, List.mem_cons_of_mem a ha2, hfa2⟩

lemma mapM_ok_mapeq {α β γ : Type} (f : α → Except Err β) (g : β → γ) (gh : α → γ)
    (hfg : ∀ a b, f a = .ok b → g b = gh a) :
    ∀ (l : List α) (l2 : List β), l.mapM f = .ok l2 → l2.map g = l.map gh := by
  intro l
  induction l with
  | nil =>
    intro l2 h
    rw [List.mapM_nil] at h
    simp only [pure, Except.pure, Except.ok.injEq] at h
    subst h
    simp
  | cons a t ih =>
    intro l2 h
    rw [List.mapM_cons] at h
    cases hfa : f a with
    | error e => rw [hfa] at h; simp [exBindErr] at h
    | ok b0 =>
      rw [hfa] at h
      rw [exBindOk] at h
      cases htt : t.mapM f with
      | error e => rw [htt] at h; simp [exBindErr] at h
      | ok bs =>
        rw [htt] at h
        rw [exBindOk] at h
        simp only [pure, Except.pure, Except.ok.injEq] at h
        subst h
        simp only [List.map_cons]
        rw [hfg a b0 hfa, ih bs htt]

lemma randomize_ok_idx {rx ry : Int → Int} {p q : Participant} {xb yb : Int}
    (h : randomize_placement rx ry p xb yb = .ok q) : q.idx = p.idx := by
  unfold randomize_placement at h
  by_cases hx : xb - p.width ≤ 0
  · simp [hx] at h
  · by_cases hy : yb - p.height ≤ 0
    · simp [hx, hy] at h
    · simp only [hx, hy, if_false, Except.ok.injEq] at h
      subst h
      rfl

lemma filter_comp_map {α : Type} (g : α → String) (q : String → Bool) (l : List α) :
    (l.filter (fun x => q (g x))).map g = (l.map g).filter q := by
  induction l with
  | nil => simp
  | cons a t ih => by_cases h : q (g a) <;> simp [List.filter_cons, h, ih]

lemma as_participant_idx {cS : String} {m : Module} {rt rd rte rn rp rc cz : Bool}
    {p : Participant} (h : as_participant cS m rt rd rte rn rp rc cz = .ok p) :
    p.idx = m.module_name := by
  obtain ⟨d0, rest, _, hidx, _⟩ := as_participant_ok h
  exact hidx

lemma updConn_idx (participants : List Participant) (q : Participant) :
    (updConn participants q).idx = q.idx := rfl

lemma updConn_xmin (participants : List Participant) (q : Participant) :
    (updConn participants q).xmin = q.xmin := rfl

lemma updConn_ymin (participants : List Participant) (q : Participant) :
    (updConn participants q).ymin = q.ymin := rfl

lemma updConn_connections (participants : List Participant) (q : Participant) :
    (updConn participants q).connections = dget (consOf participants) q.idx := rfl

lemma attach_mem {participants : List Participant} {p : Participant}
    (h : p ∈ attachConnections participants) :
    ∃ q ∈ participants, p = updConn participants q := by
  unfold attachConnections at h
  obtain ⟨q, hq, he⟩ := List.mem_map.mp h
  exact ⟨q, hq, he.symm⟩

lemma connects_keys (a : Network) (net : List Network) :
    ∀ k ∈ (connects a net).map Prod.fst, k ≠ "bound" ∧ k ≠ a.module_name := by
  intro k hk
  unfold connects at hk
  rw [List.map_map] at hk
  obtain ⟨n, hn, he⟩ := List.mem_map.mp hk
  have hf := (List.mem_filter.mp hn).2
  simp only [Bool.and_eq_true, Bool.not_eq_true', beq_eq_false_iff_ne, ne_eq] at hf
  have : k = n.module_name := by rw [← he]; rfl
  subst this
  exact ⟨hf.2, hf.1⟩

lemma attach_connections_keys {participants : List Participant} {p : Participant}
    (h : p ∈ attachConnections participants) :
    ∀ k ∈ (p.connections.getD []).map Prod.fst, k ≠ "bound" ∧ k ≠ p.idx := by
  obtain ⟨q, hq, hp⟩ := attach_mem h
  have hidx : p.idx = q.idx := by rw [hp, updConn_idx]
  have hcon : p.connections = dget (consOf participants) q.idx := by
    rw [hp, updConn_connections]
  intro k hk
  rw [hcon] at hk
  cases hd : dget (consOf participants) q.idx with
  | none =>
    rw [hd] at hk
    simp at hk
  | some c =>
    rw [hd] at hk
    simp only [Option.getD_some] at hk
    have hd2 : dget ((netOf participants).map
        (fun n => (n.module_name, connects n (netOf participants)))) q.idx = some c := hd
    obtain ⟨n, hn, hmod, hc⟩ := dget_map_some _ _ _ _ hd2
    subst hc
    have hkk := connects_keys n (netOf participants) k hk
    refine ⟨hkk.1, ?_⟩
    rw [hidx, ← hmod]
    exact hkk.2

lemma attach_map_idx (participants : List Participant) :
    (attachConnections participants).map Participant.idx = participants.map Participant.idx := by
  unfold attachConnections
  rw [List.map_map]
  rfl

lemma rngStep_mem_bound {rx ry : Int → Int} {parts out : List Participant}
    (h : rngStep rx ry parts = .ok out) :
    ∀ q ∈ out, q.idx = "bound" → q ∈ parts := by
  unfold rngStep at h
  cases hrng : (parts.filter (fun p => !(p.idx == "bound"))).mapM
      (fun p => randomize_placement rx ry p (xBoundOf parts) (yBoundOf parts)) with
  | error e => rw [hrng] at h; simp [exBindErr] at h
  | ok rng_parts =>
    rw [hrng] at h
    rw [exBindOk] at h
    simp only [pure, Except.pure, Except.ok.injEq] at h
    subst h
    intro q hq hqb
    have hnotrng : q ∉ rng_parts := by
      intro hmem
      obtain ⟨p0, hp0, hr⟩ := mapM_ok_mem _ _ _ hrng q hmem
      have hidx := randomize_ok_idx hr
      have hne := (List.mem_filter.mp hp0).2
      simp only [Bool.not_eq_true', beq_eq_false_iff_ne, ne_eq] at hne
      exact hne (by rw [← hidx, hqb])
    by_cases hbe : (parts.filter (fun p => p.idx == "bound")).isEmpty
    · rw [if_pos hbe] at hq
      exact absurd hq hnotrng
    · rw [if_neg hbe] at hq
      rcases List.mem_append.mp hq with h1 | h1
      · exact absurd h1 hnotrng
      · exact (List.mem_filter.mp h1).1

lemma rngStep_map_idx {rx ry : Int → Int} {parts out : List Participant}
    (h : rngStep rx ry parts = .ok out) :
    out.map Participant.idx =
      (parts.filter (fun p => !(p.idx == "bound"))).map Participant.idx
        ++ (parts.filter (fun p => p.idx == "bound")).map Participant.idx := by
  unfold rngStep at h
  cases hrng : (parts.filter (fun p => !(p.idx == "bound"))).mapM
      (fun p => randomize_placement rx ry p (xBoundOf parts) (yBoundOf parts)) with
  | error e => rw [hrng] at h; simp [exBindErr] at h
  | ok rng_parts =>
    rw [hrng] at h
    rw [exBindOk] at h
    simp only [pure, Except.pure, Except.ok.injEq] at h
    subst h
    have hmapr : rng_parts.map Participant.idx =
        (parts.filter (fun p => !(p.idx == "bound"))).map Participant.idx :=
      mapM_ok_mapeq _ _ _ (fun a b hab => by rw [randomize_ok_idx hab]) _ _ hrng
    by_cases hbe : (parts.filter (fun p => p.idx == "bound")).isEmpty
    · rw [if_pos hbe]
      rw [List.isEmpty_iff] at hbe
      rw [hbe]
      simp [hmapr]
    · rw [if_neg hbe]
      rw [List.map_append, hmapr]

lemma filter_idx_map (q : String → Bool) (l : List Participant) :
    (l.filter (fun p => q p.idx)).map Participant.idx = (l.map Participant.idx).filter q :=
  filter_comp_map Participant.idx q l

lemma filter_name_map (q : String → Bool) (l : List Module) :
    (l.filter (fun m => q m.module_name)).map Module.module_name =
      (l.map Module.module_name).filter q :=
  filter_comp_map Module.module_name q l

/-- Claim C3 (amended): for every module with a nonempty dimension
list the derived width is max over the x coordinates minus min over the
x coordinates, in any point order; the derived height is the y
coordinate of the lexicographically greatest point minus the y
coordinate of the lexicographically least point (not in general the y
extent); in particular for the rectangle points (0,0), (0,10), (10,10),
(10,0) in any order, width and height are both 10. -/
theorem c3_amended_bounding_extremes :
    (∀ (cS : String) (m : Module) (rt rd rte rn rp rc cz : Bool) (p : Participant),
        as_participant cS m rt rd rte rn rp rc cz = .ok p →
        p.width = specMax (m.dimensions.map Prod.fst) - specMin (m.dimensions.map Prod.fst)) ∧
    (∀ l : List (Int × Int), l.Perm rectC3 →
      ∀ (cS : String) (rt rd rte rn rp rc cz : Bool) (p : Participant),
        as_participant cS (mkModDims l) rt rd rte rn rp rc cz = .ok p →
        p.width = 10 ∧ p.height = 10) := by
  constructor
  · intro cS m rt rd rte rn rp rc cz p h
    obtain ⟨d0, rest, hs, _, _, _, hw, _, _⟩ := as_participant_ok h
    rw [hw, sorted_getLast_eq_specMax hs, sorted_head_eq_specMin hs]
  · intro l hperm cS rt rd rte rn rp rc cz p h
    obtain ⟨d0, rest, hs, _, _, _, hw, hh, _⟩ := as_participant_ok h
    have hsort0 : List.insertionSort pairLe l = List.insertionSort pairLe rectC3 :=
      List.eq_of_perm_of_sorted
        ((List.perm_insertionSort pairLe l).trans
          (hperm.trans (List.perm_insertionSort pairLe rectC3).symm))
        (List.sorted_insertionSort pairLe l)
        (List.sorted_insertionSort pairLe rectC3)
    have hsort : List.insertionSort pairLe l = [((0 : Int), (0 : Int)), (0, 10), (10, 0), (10, 10)] := by
      rw [hsort0]
      decide
    have hs2 : (mkModDims l).dimensions = l := rfl
    rw [hs2] at hs
    rw [hsort] at hs
    injection hs with h1 h2
    subst h1
    subst h2
    constructor
    · rw [hw]
      decide
    · rw [hh]
      decide

/-- Witness for claim C3 at the rectangle in its given order. -/
theorem c3_amended_bounding_extremes_witness : pC3w.width = 10 ∧ pC3w.height = 10 :=
  c3_amended_bounding_extremes.2 rectC3 (List.Perm.refl rectC3) "c" false false false false false false true pC3w
    (by decide)

/-- Claim C4 (amended): for two entries a and b of the network list
with distinct module names, b not named bound, and each module name
carried by exactly one entry of the list, the connection dict attaches
to a's module name a weight map that maps b's module name to the number
of signal names shared by a and b after removing the rails G and P.
Without the uniqueness assumption a later entry with the same module
name overwrites the weight, which the counterexample exhibits. -/
theorem c4_amended_unique_module_weight :
    ∀ (a b : Network) (net : List Network),
      net.filter (fun p => p.module_name == a.module_name) = [a] →
      net.filter (fun p => p.module_name == b.module_name) = [b] →
      ¬ b.module_name = a.module_name → ¬ b.module_name = "bound" →
      dget (net.map (fun n => (n.module_name, connects n net))) a.module_name =
          some (connects a net) ∧
        dget (connects a net) b.module_name = some (specSharedCount a b) := by
  intro a b net hA hB hne hnb
  constructor
  · exact dget_map_of_filter_eq (fun n => connects n net) net a hA
  · unfold connects
    rw [dget_map_of_filter_eq (railFree a) _ b (filter_cond_collapse a b net hne hnb hB)]
    rw [railFree_eq_spec]

/-- Witness for claim C4 at the two specification entries: the weight
between M1 and M2 is the shared count, which is 1. -/
theorem c4_amended_unique_module_weight_witness :
    (dget ([aC4, bC4].map (fun n => (n.module_name, connects n [aC4, bC4]))) "M1" =
        some (connects aC4 [aC4, bC4]) ∧
      dget (connects aC4 [aC4, bC4]) "M2" = some (specSharedCount aC4 bC4)) ∧
    specSharedCount aC4 bC4 = 1 :=
  ⟨c4_amended_unique_module_weight aC4 bC4 [aC4, bC4] (by decide) (by decide) (by decide) (by decide), by decide⟩

/-- Claim C5 (confirmed): in every successfully built participant list,
no participant's connections map carries the key bound or the
participant's own idx, and every participant named bound keeps the
computed bounding-box minimum of its own module as its position, never a
randomized one. -/
theorem c5_connections_and_bound_invariants :
    ∀ (cS : String) (rx ry : Int → Int) (modules : List Module)
      (rngP cz mt dm tm nt pl cn : Bool) (ps : List Participant),
      as_participants cS rx ry modules rngP cz mt dm tm nt pl cn = .ok ps →
      ∀ p ∈ ps,
        (∀ k ∈ (p.connections.getD []).map Prod.fst, k ≠ "bound" ∧ k ≠ p.idx) ∧
        (p.idx = "bound" → ∃ m ∈ modules, m.module_name = "bound" ∧
          ∃ d0 rest, List.insertionSort pairLe m.dimensions = d0 :: rest ∧
            p.xmin = d0.1 ∧ p.ymin = d0.2) := by
  intro cS rx ry modules rngP cz mt dm tm nt pl cn ps h
  unfold as_participants at h
  cases hparts : modules.mapM (fun m => as_participant cS m mt dm tm nt pl cn cz) with
  | error e => rw [hparts] at h; simp [exBindErr] at h
  | ok parts =>
    rw [hparts] at h
    rw [exBindOk] at h
    cases rngP with
    | true =>
      rw [if_pos rfl] at h
      cases hrst : rngStep rx ry parts with
      | error e => rw [hrst] at h; simp [exBindErr] at h
      | ok out =>
        rw [hrst] at h
        rw [exBindOk] at h
        simp only [pure, Except.pure, Except.ok.injEq] at h
        subst h
        intro p hp
        refine ⟨attach_connections_keys hp, ?_⟩
        intro hpb
        obtain ⟨q, hq, hpe⟩ := attach_mem hp
        have hqidx : q.idx = "bound" := by
          rw [hpe, updConn_idx] at hpb
          exact hpb
        have hqparts : q ∈ parts := rngStep_mem_bound hrst q hq hqidx
        obtain ⟨m, hm, hfa⟩ := mapM_ok_mem _ _ _ hparts q hqparts
        obtain ⟨d0, rest, hs, hidx, hx, hy, _⟩ := as_participant_ok hfa
        refine ⟨m, hm, by rw [← hidx]; exact hqidx, d0, rest, hs, ?_, ?_⟩
        · rw [hpe, updConn_xmin]
          exact hx
        · rw [hpe, updConn_ymin]
          exact hy
    | false =>
      rw [if_neg (by simp)] at h
      have hpp : (pure parts : Except Err (List Participant)) = Except.ok parts := rfl
      rw [hpp] at h
      rw [exBindOk] at h
      simp only [pure, Except.pure, Except.ok.injEq] at h
      subst h
      intro p hp
      refine ⟨attach_connections_keys hp, ?_⟩
      intro hpb
      obtain ⟨q, hq, hpe⟩ := attach_mem hp
      have hqidx : q.idx = "bound" := by
        rw [hpe, updConn_idx] at hpb
        exact hpb
      obtain ⟨m, hm, hfa⟩ := mapM_ok_mem _ _ _ hparts q hq
      obtain ⟨d0, rest, hs, hidx, hx, hy, _⟩ := as_participant_ok hfa
      refine ⟨m, hm, by rw [← hidx]; exact hqidx, d0, rest, hs, ?_, ?_⟩
      · rw [hpe, updConn_xmin]
        exact hx
      · rw [hpe, updConn_ymin]
        exact hy

/-- Witness for claim C5 at a concrete three-module run whose bound
module sits in the middle of the input. -/
theorem c5_connections_and_bound_invariants_witness :
    (∀ k ∈ (pC5b.connections.getD []).map Prod.fst, k ≠ "bound" ∧ k ≠ pC5b.idx) ∧
    (pC5b.idx = "bound" → ∃ m ∈ modsC5, m.module_name = "bound" ∧
      ∃ d0 rest, List.insertionSort pairLe m.dimensions = d0 :: rest ∧
        pC5b.xmin = d0.1 ∧ pC5b.ymin = d0.2) :=
  c5_connections_and_bound_invariants "#c" (fun _ => 7) (fun _ => 8) modsC5 true true false false false true false false psC5
    (by decide) pC5b (by decide)

/-- Claim C10 (confirmed): with randomized placement the participant
list carries the non-bound participants first, in input module order,
followed by the bound participants, wherever the bound module occurred
in the input; without randomized placement the participants keep the
input module order exactly. -/
theorem c10_bound_last_and_input_order :
    ∀ (cS : String) (rx ry : Int → Int) (modules : List Module)
      (cz mt dm tm nt pl cn : Bool),
      (∀ ps : List Participant,
          as_participants cS rx ry modules true cz mt dm tm nt pl cn = .ok ps →
          ps.map Participant.idx =
            (modules.filter (fun m => !(m.module_name == "bound"))).map Module.module_name
              ++ (modules.filter (fun m => m.module_name == "bound")).map Module.module_name) ∧
      (∀ ps : List Participant,
          as_participants cS rx ry modules false cz mt dm tm nt pl cn = .ok ps →
          ps.map Participant.idx = modules.map Module.module_name) := by
  intro cS rx ry modules cz mt dm tm nt pl cn
  constructor
  · intro ps h
    unfold as_participants at h
    cases hparts : modules.mapM (fun m => as_participant cS m mt dm tm nt pl cn cz) with
    | error e => rw [hparts] at h; simp [exBindErr] at h
    | ok parts =>
      rw [hparts] at h
      rw [exBindOk] at h
      rw [if_pos rfl] at h
      cases hrst : rngStep rx ry parts with
      | error e => rw [hrst] at h; simp [exBindErr] at h
      | ok out =>
        rw [hrst] at h
        rw [exBindOk] at h
        simp only [pure, Except.pure, Except.ok.injEq] at h
        subst h
        have hmapidx : parts.map Participant.idx = modules.map Module.module_name :=
          mapM_ok_mapeq _ _ _ (fun a b hab => as_participant_idx hab) _ _ hparts
        rw [attach_map_idx, rngStep_map_idx hrst]
        rw [filter_idx_map (fun s => !(s == "bound")), filter_idx_map (fun s => s == "bound")]
        rw [filter_name_map (fun s => !(s == "bound")), filter_name_map (fun s => s == "bound")]
        rw [hmapidx]
  · intro ps h
    unfold as_participants at h
    cases hparts : modules.mapM (fun m => as_participant cS m mt dm tm nt pl cn cz) with
    | error e => rw [hparts] at h; simp [exBindErr] at h
    | ok parts =>
      rw [hparts] at h
      rw [exBindOk] at h
      rw [if_neg (by simp)] at h
      have hpp : (pure parts : Except Err (List Participant)) = Except.ok parts := rfl
      rw [hpp] at h
      rw [exBindOk] at h
      simp only [pure, Except.pure, Except.ok.injEq] at h
      subst h
      rw [attach_map_idx]
      exact mapM_ok_mapeq _ _ _ (fun a b hab => as_participant_idx hab) _ _ hparts

/-- Witness for claim C10 at the concrete three-module run. -/
theorem c10_bound_last_and_input_order_witness :
    psC5.map Participant.idx =
      (modsC5.filter (fun m => !(m.module_name == "bound"))).map Module.module_name
        ++ (modsC5.filter (fun m => m.module_name == "bound")).map Module.module_name :=
  (c10_bound_last_and_input_order "#c" (fun _ => 7) (fun _ => 8) modsC5 true false false false true false false).1 psC5
    (by decide)

/-- Claim C3 (counterexample): for the dimension points (0,10), (10,0)
the code derives height minus 10, while max over y minus min over y is
10, so the claimed height formula fails on modules whose lexicographic
extremes do not attain the y extremes. -/
theorem c3_counterexample_lex_height :
    as_participant "c" (mkModDims [(0, 10), (10, 0)]) false false false false false false true =
        .ok pC3ce ∧
      pC3ce.height = -10 ∧
      specMax ([((0 : Int), (10 : Int)), (10, 0)].map Prod.snd) -
          specMin ([((0 : Int), (10 : Int)), (10, 0)].map Prod.snd) = 10 := by
  refine ⟨by decide, by decide, by decide⟩

/-- Claim C4 (counterexample): with a third entry also carrying module
name M2, the weight computed from entry a to module M2 is 0, not the
shared count 1 of the distinct entries a and b: the later entry
overwrites the dict key. -/
theorem c4_counterexample_duplicate_module_name :
    dget (connects aC4 [aC4, bC4, cC4]) "M2" ≠ some (specSharedCount aC4 bC4) ∧
      dget (connects aC4 [aC4, bC4, cC4]) "M2" = some 0 ∧ specSharedCount aC4 bC4 = 1 := by
  refine ⟨by decide, by decide, by decide⟩

/-- Witness for claim C2 at the empty trailing tail. -/
theorem c2_amended_trailing_text_ignored_witness :
    parseChars (docC2.data ++ '@' :: []) = .ok [modC2] :=
  c2_amended_trailing_text_ignored.1 []

end Yal
